import Mathlib

/-!
Verification of the dpctl elementwise-multiply and boolean-reduction kernels.

This file gives a shallow embedding of the C++ sources
`kernels/elementwise_functions/multiply.hpp`,
`kernels/boolean_reductions.hpp` and `dpctl/tensor/_flags.pyx`
and proves the specified properties about them.
-/

namespace DpctlTensor

/-- The 14-type universe of element type tags handled by the type-dispatch
machinery (`num_types = 14` in the dispatch layer). -/
inductive ElemType where
  | bool
  | uint8
  | int8
  | uint16
  | int16
  | uint32
  | int32
  | uint64
  | int64
  | float16
  | float32
  | float64
  | complex64
  | complex128
deriving DecidableEq, Fintype, Repr

/-- The ordered promotion table of `MultiplyOutputType` (multiply.hpp lines
104-167): each `BinaryTypeMapResultEntry<T1, X, T2, Y, R>` is an entry
`(X, Y, R)`, listed in source order.  The trailing `DefaultResultEntry<void>`
is represented by lookup failure (`none`). -/
def multiplyTable : List (ElemType × ElemType × ElemType) :=
  [ (.bool, .bool, .bool),
    (.uint8, .uint8, .uint8),
    (.int8, .int8, .int8),
    (.uint16, .uint16, .uint16),
    (.int16, .int16, .int16),
    (.uint32, .uint32, .uint32),
    (.int32, .int32, .int32),
    (.uint64, .uint64, .uint64),
    (.int64, .int64, .int64),
    (.float16, .float16, .float16),
    (.float32, .float32, .float32),
    (.float64, .float64, .float64),
    (.complex64, .complex64, .complex64),
    (.complex128, .complex128, .complex128) ]

/-- Modelled from the spec: `std::disjunction` over
`BinaryTypeMapResultEntry` entries (from `utils/type_dispatch.hpp`, whose
source is not included) selects the first entry whose two type parameters
structurally match the queried pair, and `DefaultResultEntry<void>` (i.e.
`none`) applies when no entry matches.  `MultiplyOutputType` is therefore a
first-match lookup in the ordered table. -/
def MultiplyOutputType (t1 t2 : ElemType) : Option ElemType :=
  (multiplyTable.find? (fun e => decide (e.1 = t1) && decide (e.2.1 = t2))).map
    (fun e => e.2.2)

/-- Modelled from the spec: `dpctl::tensor::type_utils::is_complex` (from
`utils/type_utils.hpp`, whose source is not included) holds exactly for the
two complex element types. -/
def is_complex : ElemType → Bool
  | .complex64 => true
  | .complex128 => true
  | _ => false

/-- Tags for the kernel implementation functions a multiply factory can
return in place of a raw function pointer (`nullptr` is `none`). -/
inductive MultiplyKernelFn where
  | contig_impl (t1 t2 : ElemType)
  | strided_impl (t1 t2 : ElemType)
  | matrix_row_broadcast_impl (t1 t2 res : ElemType)
  | row_matrix_broadcast_impl (t1 t2 res : ElemType)
deriving DecidableEq, Repr

/-- MultiplyContigFactory::get (multiply.hpp lines 215-231): returns null
when the promotion result type is void, else the contiguous kernel. -/
def MultiplyContigFactory.get (t1 t2 : ElemType) : Option MultiplyKernelFn :=
  match MultiplyOutputType t1 t2 with
  | none => none
  | some _ => some (.contig_impl t1 t2)

/-- MultiplyStridedFactory::get (multiply.hpp lines 286-302): returns null
when the promotion result type is void, else the strided kernel. -/
def MultiplyStridedFactory.get (t1 t2 : ElemType) : Option MultiplyKernelFn :=
  match MultiplyOutputType t1 t2 with
  | none => none
  | some _ => some (.strided_impl t1 t2)

/-- MultiplyContigMatrixContigRowBroadcastFactory::get (multiply.hpp lines
389-415): returns null when the promotion result is void, or when either
operand type or the result type is complex; else the matrix-row broadcast
kernel. -/
def MultiplyContigMatrixContigRowBroadcastFactory.get (t1 t2 : ElemType) :
    Option MultiplyKernelFn :=
  match MultiplyOutputType t1 t2 with
  | none => none
  | some resT =>
    if is_complex t1 || is_complex t2 || is_complex resT then none
    else some (.matrix_row_broadcast_impl t1 t2 resT)

/-- MultiplyContigRowContigMatrixBroadcastFactory::get (multiply.hpp lines
437-463): same null conditions as the matrix-row factory, returning the
row-matrix kernel (which swaps operands and reuses the matrix-row one). -/
def MultiplyContigRowContigMatrixBroadcastFactory.get (t1 t2 : ElemType) :
    Option MultiplyKernelFn :=
  match MultiplyOutputType t1 t2 with
  | none => none
  | some resT =>
    if is_complex t1 || is_complex t2 || is_complex resT then none
    else some (.row_matrix_broadcast_impl t1 t2 resT)

/-! Model of `_flags.pyx`.  The flag constants are imported there from
`dpctl.tensor._usmarray`, whose source is not included, so the accessors are
parameterized by the constants. -/

/-- Flags.c_contiguous (_flags.pyx lines 38-41), parameterized by the
`USM_ARRAY_C_CONTIGUOUS` constant `C`. -/
def Flags.c_contiguous (C flags : Nat) : Bool :=
  (flags &&& C) == C

/-- Flags.f_contiguous (_flags.pyx lines 43-46), parameterized by the
`USM_ARRAY_F_CONTIGUOUS` constant `F`. -/
def Flags.f_contiguous (F flags : Nat) : Bool :=
  (flags &&& F) == F

/-- Flags.writable (_flags.pyx lines 48-51), parameterized by the
`USM_ARRAY_WRITEABLE` constant `W`: literally
`False if ((flags & W) == W) else True`. -/
def Flags.writable (W flags : Nat) : Bool :=
  if (flags &&& W) == W then false else true

/-- Flags.forc (_flags.pyx lines 53-58). -/
def Flags.forc (C F flags : Nat) : Bool :=
  if ((flags &&& F) == F) || ((flags &&& C) == C) then true else false

/-- Flags.__getitem__ (_flags.pyx lines 71-79); the fall-through (no branch
taken) returns Python `None`, modelled as `none`. -/
def Flags.getitem (C F W flags : Nat) (name : String) : Option Bool :=
  if name = "C_CONTIGUOUS" ∨ name = "C" then some (Flags.c_contiguous C flags)
  else if name = "F_CONTIGUOUS" ∨ name = "F" then
    some (Flags.f_contiguous F flags)
  else if name = "WRITABLE" then some (Flags.writable W flags)
  else if name = "CONTIGUOUS" then some (Flags.forc C F flags)
  else none

/-! Trace model of `multiply_contig_matrix_contig_row_broadcast_impl`
(multiply.hpp lines 315-387).  The queue is modelled as the list of
submissions made so far, in submission order; a submission records its
completion-event id (its position in the queue), the event ids it depends
on, and whether it is a host task.  Device scratch allocation is modelled by
the boolean outcome `allocOk` of `sycl::malloc_device`. -/

/-- A queue submission: completion event id, the events waited on via
`depends_on`, and whether the submitted work is a `host_task`. -/
structure Submission where
  ev : Nat
  deps : List Nat
  is_host_task : Bool
deriving DecidableEq, Repr

/-- multiply_contig_matrix_contig_row_broadcast_impl (multiply.hpp lines
315-387) as a submission trace.  The function first allocates the padded
scratch vector; on null it throws `std::runtime_error` before any
submission.  Otherwise it submits, in order: the padded-vector fill kernel
(depending on the caller's `depends`), the compute kernel (depending on the
fill event), and a cleanup host task freeing the scratch buffer (depending
on the compute event), appends the cleanup event to `host_tasks`, and
returns the compute event. -/
def multiply_contig_matrix_contig_row_broadcast (allocOk : Bool)
    (depends : List Nat) (host_tasks : List Nat) (q : List Submission) :
    List Submission × Except String (Nat × List Nat) :=
  if allocOk = false then
    (q, Except.error "Could not allocate memory on the device")
  else
    let make_padded_vec_ev := q.length
    let comp_ev := q.length + 1
    let tmp_cleanup_ev := q.length + 2
    (q ++ [⟨make_padded_vec_ev, depends, false⟩,
           ⟨comp_ev, [make_padded_vec_ev], false⟩,
           ⟨tmp_cleanup_ev, [comp_ev], true⟩],
     Except.ok (comp_ev, host_tasks ++ [tmp_cleanup_ev]))

/-- Allocation size for the padded scratch vector: `n1_padded = n1 +
max_sgSize` (multiply.hpp line 340). -/
def n1_padded (n1 max_sgSize : Nat) : Nat := n1 + max_sgSize

/-- The padded-vector fill kernel (multiply.hpp lines 346-352): a parallel
range of `n1_padded` work items, item `i` storing `padded_vec[i] = vec[i %
n1]`. -/
def padded_vec_fill {β : Type} (vec : Nat → β) (n1 max_sgSize : Nat) :
    List β :=
  (List.range (n1_padded n1 max_sgSize)).map (fun i => vec (i % n1))

/-! Model of `boolean_reductions.hpp` (src/unnamed/part_000).  Output values
have type `int32`, modelled as `Int`; input elements of the generic element
type `argT` enter the reduction only through
`convert_impl<bool, argT>(inp_[offset])`, modelled as a predicate applied at
the flat element offset.  Offsets produced by the indexer objects (from
`utils/offset_utils.hpp`, a black-box collaborator) are modelled as natural
numbers. -/

/-- Conversion of a boolean to the `int32`-coded output value (the implicit
`bool` to `outT` conversion in the kernels). -/
def boolToInt (b : Bool) : Int := if b then 1 else 0

/-- sycl::logical_and over `int32`: `(bool)(a && b)` converted back to
`int32`. -/
def logical_and (a b : Int) : Int := boolToInt ((a != 0) && (b != 0))

/-- sycl::logical_or over `int32`: `(bool)(a || b)` converted back to
`int32`. -/
def logical_or (a b : Int) : Int := boolToInt ((a != 0) || (b != 0))

/-- Modelled from the spec: `sycl::known_identity<sycl::logical_and, int32>`
is the operator's neutral element all-true, i.e. `1`. -/
def all_identity : Int := 1

/-- Modelled from the spec: `sycl::known_identity<sycl::logical_or, int32>`
is the operator's neutral element all-false, i.e. `0`. -/
def any_identity : Int := 0

/-- The half-open index interval `[start, stop)` spanned by a pair of
pointers into the input buffer. -/
def chunk (start stop : Nat) : List Nat :=
  (List.range (stop - start)).map (fun j => start + j)

/-- SequentialBooleanReduction::operator() (part_000 lines 136-157): the
value stored to the output slot of one work item — a sequential fold of the
reduction op over the converted input elements at offsets
`inp_iter_offset + redIdx m` for `m < reduction_max_gid`, starting from the
identity. -/
def SequentialBooleanReduction (op : Int → Int → Int) (identity : Int)
    (pred : Nat → Bool) (inp_iter_offset : Nat) (redIdx : Nat → Nat)
    (reduction_max_gid : Nat) : Int :=
  (List.range reduction_max_gid).foldl
    (fun red_val m => op red_val (boolToInt (pred (inp_iter_offset + redIdx m))))
    identity

/-- The preferred per-work-item workload of the large-reduction path
(part_000 lines 303, 557). -/
def preferred_reductions_per_wi : Nat := 4

/-- The per-work-item workload chosen by the large-reduction path (part_000
lines 304-307, 558-561). -/
def reductions_per_wi (wg reduction_nelems : Nat) : Nat :=
  if reduction_nelems < preferred_reductions_per_wi * wg then
    (reduction_nelems + wg - 1) / wg
  else preferred_reductions_per_wi

/-- Number of work groups along the reduction dimension in the
large-reduction path (part_000 lines 309-311, 563-565). -/
def reduction_groups (wg reduction_nelems : Nat) : Nat :=
  (reduction_nelems + reductions_per_wi wg reduction_nelems * wg - 1) /
    (reductions_per_wi wg reduction_nelems * wg)

/-- all_reduce_wg_contig::operator() (part_000 lines 61-71):
`sycl::joint_all_of` of the predicate over the input elements in
`[start, stop)`, converted to the `int32` output type. -/
def all_reduce_wg_contig (pred : Nat → Bool) (start stop : Nat) : Int :=
  boolToInt ((chunk start stop).all pred)

/-- any_reduce_wg_contig::operator() (part_000 lines 73-83):
`sycl::joint_any_of` of the predicate over the input elements in
`[start, stop)`, converted to the `int32` output type. -/
def any_reduce_wg_contig (pred : Nat → Bool) (start stop : Nat) : Int :=
  boolToInt ((chunk start stop).any pred)

/-- Start of the input range of work group `(reduction_id, batch)` in
ContigBooleanReduction::operator() (part_000 lines 192-193):
`base + reduction_batch_id * wg_size * reductions_per_wi` with
`base = reduction_id * reduction_max_gid`. -/
def ContigBooleanReduction.start (reduction_max_gid wg rpw reduction_id batch :
    Nat) : Nat :=
  reduction_id * reduction_max_gid + batch * wg * rpw

/-- End of the input range of work group `(reduction_id, batch)` in
ContigBooleanReduction::operator() (part_000 lines 194-195): the start plus
`reductions_per_wi * wg_size`, clamped by `min` to
`base + reduction_max_gid`. -/
def ContigBooleanReduction.stop (reduction_max_gid wg rpw reduction_id batch :
    Nat) : Nat :=
  min (ContigBooleanReduction.start reduction_max_gid wg rpw reduction_id batch
        + rpw * wg)
    (reduction_id * reduction_max_gid + reduction_max_gid)

/-- Final value of output slot `reduction_id` after the large-size
contiguous path (part_000 lines 183-213 and 286-323): the init kernel
stores the identity, then each work group `batch` computes its group value
via the group op over its clamped range and the group leader folds it into
the slot with an atomic compare-exchange loop.  The atomic combines are
modelled in batch order; `logical_and`/`logical_or` are associative and
commutative, so any interleaving yields this value. -/
def ContigBooleanReduction.out (op : Int → Int → Int) (identity : Int)
    (groupOp : (Nat → Bool) → Nat → Nat → Int) (pred : Nat → Bool)
    (wg reduction_max_gid reduction_id : Nat) : Int :=
  let rpw := reductions_per_wi wg reduction_max_gid
  (List.range (reduction_groups wg reduction_max_gid)).foldl
    (fun acc batch =>
      op acc (groupOp pred
        (ContigBooleanReduction.start reduction_max_gid wg rpw reduction_id
          batch)
        (ContigBooleanReduction.stop reduction_max_gid wg rpw reduction_id
          batch)))
    identity

/-- all_reduce_wg_strided::operator() (part_000 lines 85-93):
`sycl::all_of_group` of the nonzero test over the work items' local values,
converted to `int32`. -/
def all_reduce_wg_strided (vals : Nat → Int) (wg : Nat) : Int :=
  boolToInt ((List.range wg).all (fun lid => vals lid != 0))

/-- any_reduce_wg_strided::operator() (part_000 lines 95-103):
`sycl::any_of_group` of the nonzero test over the work items' local values,
converted to `int32`. -/
def any_reduce_wg_strided (vals : Nat → Int) (wg : Nat) : Int :=
  boolToInt ((List.range wg).any (fun lid => vals lid != 0))

/-- Local value of work item `(batch, lid)` in
StridedBooleanReduction::operator() (part_000 lines 406-423): a fold over
`m < reductions_per_wi` of the converted element at reduction index
`arg_reduce_gid = lid + batch * wg * rpw + m * wg`, skipping (leaving the
accumulator unchanged) whenever `arg_reduce_gid >= reduction_max_gid`. -/
def StridedBooleanReduction.localVal (op : Int → Int → Int) (identity : Int)
    (pred : Nat → Bool) (inp_iter_offset : Nat) (redIdx : Nat → Nat)
    (reduction_max_gid wg rpw batch lid : Nat) : Int :=
  (List.range rpw).foldl
    (fun acc m =>
      if lid + batch * wg * rpw + m * wg < reduction_max_gid then
        op acc (boolToInt (pred (inp_iter_offset +
          redIdx (lid + batch * wg * rpw + m * wg))))
      else acc)
    identity

/-- The reduction indices actually dereferenced by work item
`(batch, lid)` of StridedBooleanReduction::operator(): the candidate
`arg_reduce_gid` values of its loop, kept only when the in-range guard
`arg_reduce_gid < reduction_max_gid` passes. -/
def StridedBooleanReduction.gids (reduction_max_gid wg rpw batch lid : Nat) :
    List Nat :=
  ((List.range rpw).map (fun m => lid + batch * wg * rpw + m * wg)).filter
    (fun gid => decide (gid < reduction_max_gid))

/-- Final value of output slot `reduction_id` after the large-size strided
path (part_000 lines 394-442 and 523-581): init to identity, then per-batch
group values (group op over the work items' guarded local folds) combined
by the leaders' atomic compare-exchange loops, modelled in batch order. -/
def StridedBooleanReduction.out (op : Int → Int → Int) (identity : Int)
    (groupOp : (Nat → Int) → Nat → Int) (pred : Nat → Bool)
    (inp_iter_offset : Nat) (redIdx : Nat → Nat)
    (wg reduction_max_gid : Nat) : Int :=
  let rpw := reductions_per_wi wg reduction_max_gid
  (List.range (reduction_groups wg reduction_max_gid)).foldl
    (fun acc batch =>
      op acc (groupOp
        (fun lid => StridedBooleanReduction.localVal op identity pred
          inp_iter_offset redIdx reduction_max_gid wg rpw batch lid)
        wg))
    identity

/-- boolean_reduction_contig_impl (part_000 lines 232-326): the list of
`int32` values stored to the output slots `0, ..., iter_nelems - 1`.  The
work-group threshold is `wg = 4 * max_sg` where `max_sg` is the device's
maximum sub-group size; below it one sequential work item per iteration
index runs, otherwise the two-phase (init + group/atomic) path runs.  For
the sequential path the iteration indexer is
`Strided1DIndexer{0, iter_nelems, reduction_nelems}` paired with
`NoOpIndexer` (modelled from the spec: flat-strided-1D indexer maps `id` to
`id * reduction_nelems`; no-op indexer is the identity), so slot `id` folds
the input elements at flat offsets `id * reduction_nelems + m`. -/
def boolean_reduction_contig_run {α : Type} (op : Int → Int → Int)
    (identity : Int) (groupOp : (Nat → Bool) → Nat → Nat → Int)
    (toBool : α → Bool) (inp : Nat → α)
    (max_sg iter_nelems reduction_nelems : Nat) : List Int :=
  let wg := 4 * max_sg
  if reduction_nelems < wg then
    (List.range iter_nelems).map (fun id =>
      SequentialBooleanReduction op identity (fun j => toBool (inp j))
        (id * reduction_nelems) (fun m => m) reduction_nelems)
  else
    (List.range iter_nelems).map (fun id =>
      ContigBooleanReduction.out op identity groupOp
        (fun j => toBool (inp j)) wg reduction_nelems id)

/-- boolean_reduction_strided_impl (part_000 lines 470-584): the list of
`int32` values stored to the per-iteration output slots, with the strided
indexers abstracted as functions — `iterIdx id` gives the pair of input and
output iteration offsets (`TwoOffsets_StridedIndexer`) and `redIdx` the
reduction-dimension offset (`StridedIndexer`).  Values are listed in
iteration-index order; slot `id`'s value is written at output offset
`(iterIdx id).2`. -/
def boolean_reduction_strided_run {α : Type} (op : Int → Int → Int)
    (identity : Int) (groupOp : (Nat → Int) → Nat → Int)
    (toBool : α → Bool) (inp : Nat → α) (iterIdx : Nat → Nat × Nat)
    (redIdx : Nat → Nat) (max_sg iter_nelems reduction_nelems : Nat) :
    List Int :=
  let wg := 4 * max_sg
  if reduction_nelems < wg then
    (List.range iter_nelems).map (fun id =>
      SequentialBooleanReduction op identity (fun j => toBool (inp j))
        (iterIdx id).1 redIdx reduction_nelems)
  else
    (List.range iter_nelems).map (fun id =>
      StridedBooleanReduction.out op identity groupOp
        (fun j => toBool (inp j)) (iterIdx id).1 redIdx wg reduction_nelems)

/-- Claim C1: the multiply type-promotion lookup is the first-match lookup of
the fixed ordered 14-entry table, which lists exactly the 14 same-type pairs;
hence `(T, T)` resolves to `T` for every element type, every pair of two
distinct element types resolves to `Unsupported` (`none`), and the lookup is
a deterministic total function of the pair. -/
theorem MultiplyOutputType_same_type_only :
    ∀ t1 t2 : ElemType,
      MultiplyOutputType t1 t2 = if t1 = t2 then some t1 else none := by
  decide

/-- Claim C2: the contiguous and strided multiply factories return a null
function pointer exactly when the promotion result for the pair is void; the
matrix-row and row-matrix broadcast factories return null exactly when the
promotion result is void or any of the two operand types or the result type
is complex; in every other case the factories return the corresponding
kernel implementation function. -/
theorem multiply_factories_null_characterization :
    ∀ t1 t2 : ElemType,
      ((MultiplyContigFactory.get t1 t2 = none) ↔
        MultiplyOutputType t1 t2 = none)
      ∧ ((MultiplyStridedFactory.get t1 t2 = none) ↔
        MultiplyOutputType t1 t2 = none)
      ∧ ((MultiplyContigMatrixContigRowBroadcastFactory.get t1 t2 = none) ↔
        (MultiplyOutputType t1 t2 = none ∨ is_complex t1 = true ∨
          is_complex t2 = true ∨
          (∃ r, MultiplyOutputType t1 t2 = some r ∧ is_complex r = true)))
      ∧ ((MultiplyContigRowContigMatrixBroadcastFactory.get t1 t2 = none) ↔
        (MultiplyOutputType t1 t2 = none ∨ is_complex t1 = true ∨
          is_complex t2 = true ∨
          (∃ r, MultiplyOutputType t1 t2 = some r ∧ is_complex r = true)))
      ∧ (MultiplyOutputType t1 t2 = none ∨
          MultiplyContigFactory.get t1 t2 = some (.contig_impl t1 t2))
      ∧ (MultiplyOutputType t1 t2 = none ∨
          MultiplyStridedFactory.get t1 t2 = some (.strided_impl t1 t2))
      ∧ (MultiplyContigMatrixContigRowBroadcastFactory.get t1 t2 = none ∨
          ∃ r, MultiplyOutputType t1 t2 = some r ∧
            MultiplyContigMatrixContigRowBroadcastFactory.get t1 t2 =
              some (.matrix_row_broadcast_impl t1 t2 r)) := by
  decide

/-- Claim C6: the matrix-row broadcast launcher allocates a scratch buffer
of exactly `n1 + max_sgSize` elements, and the fill kernel sets
`padded_vec[i] = vec[i % n1]` for every index `i` in the allocation — every
element of the padded buffer equals the source row element at the wrapped
position (which is a valid row index). -/
theorem padded_vec_wraparound :
    ∀ (β : Type) (vec : Nat → β) (dflt : β) (n1 max_sgSize i : Nat),
      0 < n1 → i < n1_padded n1 max_sgSize →
      (padded_vec_fill vec n1 max_sgSize).length = n1 + max_sgSize
      ∧ (padded_vec_fill vec n1 max_sgSize).getD i dflt = vec (i % n1)
      ∧ i % n1 < n1 := by
  intro β vec dflt n1 max_sgSize i hn1 hi
  have hlen : (padded_vec_fill vec n1 max_sgSize).length = n1 + max_sgSize := by
    simp [padded_vec_fill, n1_padded]
  refine ⟨hlen, ?_, Nat.mod_lt _ hn1⟩
  have hi' : i < (padded_vec_fill vec n1 max_sgSize).length := by
    simpa [hlen, n1_padded] using hi
  rw [List.getD_eq_getElem _ _ hi']
  simp [padded_vec_fill]

/-- Witness for padded_vec_wraparound at `n1 = 3`, `max_sgSize = 2`,
`i = 4`. -/
theorem padded_vec_wraparound_witness :
    0 < 3 ∧ 4 < n1_padded 3 2
    ∧ ((padded_vec_fill (fun k => 10 + k) 3 2).length = 3 + 2
        ∧ (padded_vec_fill (fun k => 10 + k) 3 2).getD 4 0 = 10 + (4 % 3)
        ∧ 4 % 3 < 3) :=
  ⟨by decide, by decide,
    padded_vec_wraparound Nat (fun k => 10 + k) 0 3 2 4 (by decide) (by decide)⟩

/-- Claim C7: in every invocation of the matrix-row broadcast launcher with
allocation succeeding, the cleanup host task is submitted with a dependency
on exactly the compute kernel's completion event, and its completion event
is appended to the caller-supplied `host_tasks` list exactly once. -/
theorem broadcast_cleanup_after_compute :
    ∀ (depends host_tasks : List Nat) (q : List Submission),
      ∃ fill_ev comp_ev cleanup_ev,
        multiply_contig_matrix_contig_row_broadcast true depends host_tasks q
          = (q ++ [⟨fill_ev, depends, false⟩,
                   ⟨comp_ev, [fill_ev], false⟩,
                   ⟨cleanup_ev, [comp_ev], true⟩],
             Except.ok (comp_ev, host_tasks ++ [cleanup_ev]))
        ∧ (host_tasks ++ [cleanup_ev]).count cleanup_ev
            = host_tasks.count cleanup_ev + 1 := by
  intro depends host_tasks q
  exact ⟨q.length, q.length + 1, q.length + 2, rfl, by simp⟩

/-- Claim C8: if device allocation of the scratch padded vector fails, the
matrix-row broadcast launcher raises the runtime error at the point of
allocation and the queue is exactly unchanged — no kernel of that
invocation has been submitted (the allocation and its null check precede
every submission in the source). -/
theorem broadcast_alloc_failure_no_submission :
    ∀ (depends host_tasks : List Nat) (q : List Submission),
      multiply_contig_matrix_contig_row_broadcast false depends host_tasks q
        = (q, Except.error "Could not allocate memory on the device") := by
  intro depends host_tasks q
  rfl

/-- Claim C10: for every flags bitmask value, with `USM_ARRAY_WRITEABLE`
being a single bit `2 ^ k`, `Flags.writable` returns `True` exactly when
that bit is NOT set in the stored flags (the test is inverted relative to
the bit's name), and the `"WRITABLE"` key of `Flags.__getitem__` returns the
same inverted value. -/
theorem flags_writable_inverted_bit :
    ∀ (C F k flags : Nat),
      Flags.writable (2 ^ k) flags = !flags.testBit k
      ∧ Flags.getitem C F (2 ^ k) flags "WRITABLE"
          = some (!flags.testBit k) := by
  intro C F k flags
  have hw : Flags.writable (2 ^ k) flags = !flags.testBit k := by
    unfold Flags.writable
    rcases h : flags.testBit k with _ | _
    · have hz : flags &&& 2 ^ k = 0 := by
        simpa [h] using Nat.and_two_pow flags k
      have hne : (0 : Nat) ≠ 2 ^ k := (Nat.pos_pow_of_pos k (by norm_num)).ne
      simp [hz, hne]
    · have hz : flags &&& 2 ^ k = 2 ^ k := by
        simpa [h] using Nat.and_two_pow flags k
      simp [hz]
  refine ⟨hw, ?_⟩
  rw [Flags.getitem, if_neg (by decide), if_neg (by decide), if_pos rfl, hw]

/-! Helper lemmas about the boolean operators and folds. -/

theorem boolToInt_bne_zero (b : Bool) : (boolToInt b != 0) = b := by
  cases b <;> rfl

theorem logical_and_boolToInt (a b : Bool) :
    logical_and (boolToInt a) (boolToInt b) = boolToInt (a && b) := by
  cases a <;> cases b <;> rfl

theorem logical_or_boolToInt (a b : Bool) :
    logical_or (boolToInt a) (boolToInt b) = boolToInt (a || b) := by
  cases a <;> cases b <;> rfl

theorem foldl_logical_or {ι : Type} (l : List ι) (f : ι → Bool) (b : Bool) :
    l.foldl (fun acc x => logical_or acc (boolToInt (f x))) (boolToInt b)
      = boolToInt (b || l.any f) := by
  induction l generalizing b with
  | nil => simp
  | cons x xs ih =>
    simp only [List.foldl_cons, logical_or_boolToInt, ih, List.any_cons,
      Bool.or_assoc]

theorem foldl_logical_and {ι : Type} (l : List ι) (f : ι → Bool) (b : Bool) :
    l.foldl (fun acc x => logical_and acc (boolToInt (f x))) (boolToInt b)
      = boolToInt (b && l.all f) := by
  induction l generalizing b with
  | nil => simp
  | cons x xs ih =>
    simp only [List.foldl_cons, logical_and_boolToInt, ih, List.all_cons,
      Bool.and_assoc]

theorem foldl_guard_logical_or {ι : Type} (l : List ι) (P : ι → Prop)
    [DecidablePred P] (f : ι → Bool) (b : Bool) :
    l.foldl
        (fun acc x => if P x then logical_or acc (boolToInt (f x)) else acc)
        (boolToInt b)
      = boolToInt (b || l.any (fun x => decide (P x) && f x)) := by
  induction l generalizing b with
  | nil => simp
  | cons x xs ih =>
    by_cases h : P x
    · simp [List.foldl_cons, h, logical_or_boolToInt, ih, Bool.or_assoc]
    · simp [List.foldl_cons, h, ih]

theorem foldl_guard_logical_and {ι : Type} (l : List ι) (P : ι → Prop)
    [DecidablePred P] (f : ι → Bool) (b : Bool) :
    l.foldl
        (fun acc x => if P x then logical_and acc (boolToInt (f x)) else acc)
        (boolToInt b)
      = boolToInt (b && l.all (fun x => !(decide (P x)) || f x)) := by
  induction l generalizing b with
  | nil => simp
  | cons x xs ih =>
    by_cases h : P x
    · simp [List.foldl_cons, h, logical_and_boolToInt, ih, Bool.and_assoc]
    · simp [List.foldl_cons, h, ih]

theorem foldl_fixed {ι : Type} (l : List ι) (f : Int → ι → Int) :
    ∀ a : Int, (∀ x ∈ l, ∀ acc, f acc x = acc) → l.foldl f a = a := by
  induction l with
  | nil => intro a _; rfl
  | cons x xs ih =>
    intro a h
    rw [List.foldl_cons, h x (List.mem_cons_self x xs) a]
    exact ih a (fun y hy acc => h y (List.mem_cons_of_mem x hy) acc)

theorem mem_chunk {j s e : Nat} : j ∈ chunk s e ↔ s ≤ j ∧ j < e := by
  unfold chunk
  simp only [List.mem_map, List.mem_range]
  constructor
  · rintro ⟨k, hk, rfl⟩
    omega
  · rintro ⟨h1, h2⟩
    exact ⟨j - s, by omega, by omega⟩

/-! Arithmetic facts about the large-path work partitioning. -/

theorem ceil_div_mul_ge (n D : Nat) (hD : 0 < D) :
    n ≤ (n + D - 1) / D * D := by
  rcases Nat.eq_zero_or_pos n with rfl | hn
  · simp
  by_contra hlt
  push_neg at hlt
  have h1 : ((n + D - 1) / D + 1) * D ≤ n + D - 1 := by
    have := hlt
    rw [Nat.succ_mul]
    omega
  have h2 : (n + D - 1) / D + 1 ≤ (n + D - 1) / D :=
    (Nat.le_div_iff_mul_le hD).mpr h1
  omega

theorem reductions_per_wi_pos (wg n : Nat) (hw : 0 < wg) (hn : 0 < n) :
    0 < reductions_per_wi wg n := by
  unfold reductions_per_wi preferred_reductions_per_wi
  split
  · have h1 : 1 * wg ≤ n + wg - 1 := by omega
    exact (Nat.le_div_iff_mul_le hw).mpr h1
  · omega

theorem reductions_per_wi_zero (wg : Nat) (hw : 0 < wg) :
    reductions_per_wi wg 0 = 0 := by
  unfold reductions_per_wi preferred_reductions_per_wi
  rw [if_pos (by omega)]
  exact Nat.div_eq_of_lt (by omega)

theorem reduction_groups_zero (wg : Nat) (hw : 0 < wg) :
    reduction_groups wg 0 = 0 := by
  unfold reduction_groups
  rw [reductions_per_wi_zero wg hw]
  simp

theorem reduction_coverage (wg n : Nat) (hw : 0 < wg) :
    n ≤ reduction_groups wg n * (reductions_per_wi wg n * wg) := by
  rcases Nat.eq_zero_or_pos n with rfl | hn
  · simp
  have hr := reductions_per_wi_pos wg n hw hn
  have hD : 0 < reductions_per_wi wg n * wg := Nat.mul_pos hr hw
  unfold reduction_groups
  exact ceil_div_mul_ge n _ hD

/-! Closed forms of the sequential and the two-phase reduction paths. -/

theorem SequentialBooleanReduction_and_eq (pred : Nat → Bool) (off : Nat)
    (redIdx : Nat → Nat) (n : Nat) :
    SequentialBooleanReduction logical_and all_identity pred off redIdx n
      = boolToInt ((List.range n).all (fun m => pred (off + redIdx m))) := by
  have h := foldl_logical_and (List.range n)
    (fun m => pred (off + redIdx m)) true
  simpa [SequentialBooleanReduction, all_identity, boolToInt] using h

theorem SequentialBooleanReduction_or_eq (pred : Nat → Bool) (off : Nat)
    (redIdx : Nat → Nat) (n : Nat) :
    SequentialBooleanReduction logical_or any_identity pred off redIdx n
      = boolToInt ((List.range n).any (fun m => pred (off + redIdx m))) := by
  have h := foldl_logical_or (List.range n)
    (fun m => pred (off + redIdx m)) false
  simpa [SequentialBooleanReduction, any_identity, boolToInt] using h

theorem ContigBooleanReduction_out_all_eq (pred : Nat → Bool)
    (wg n rid : Nat) :
    ContigBooleanReduction.out logical_and all_identity all_reduce_wg_contig
        pred wg n rid
      = boolToInt ((List.range (reduction_groups wg n)).all
          (fun batch =>
            (chunk
              (ContigBooleanReduction.start n wg (reductions_per_wi wg n) rid
                batch)
              (ContigBooleanReduction.stop n wg (reductions_per_wi wg n) rid
                batch)).all pred)) := by
  have h := foldl_logical_and (List.range (reduction_groups wg n))
    (fun batch =>
      (chunk
        (ContigBooleanReduction.start n wg (reductions_per_wi wg n) rid batch)
        (ContigBooleanReduction.stop n wg (reductions_per_wi wg n) rid
          batch)).all pred)
    true
  simpa [ContigBooleanReduction.out, all_reduce_wg_contig, all_identity,
    boolToInt] using h

theorem ContigBooleanReduction_out_any_eq (pred : Nat → Bool)
    (wg n rid : Nat) :
    ContigBooleanReduction.out logical_or any_identity any_reduce_wg_contig
        pred wg n rid
      = boolToInt ((List.range (reduction_groups wg n)).any
          (fun batch =>
            (chunk
              (ContigBooleanReduction.start n wg (reductions_per_wi wg n) rid
                batch)
              (ContigBooleanReduction.stop n wg (reductions_per_wi wg n) rid
                batch)).any pred)) := by
  have h := foldl_logical_or (List.range (reduction_groups wg n))
    (fun batch =>
      (chunk
        (ContigBooleanReduction.start n wg (reductions_per_wi wg n) rid batch)
        (ContigBooleanReduction.stop n wg (reductions_per_wi wg n) rid
          batch)).any pred)
    false
  simpa [ContigBooleanReduction.out, any_reduce_wg_contig, any_identity,
    boolToInt] using h

theorem StridedBooleanReduction_localVal_and_eq (pred : Nat → Bool)
    (off : Nat) (redIdx : Nat → Nat) (n wg rpw batch lid : Nat) :
    StridedBooleanReduction.localVal logical_and all_identity pred off redIdx
        n wg rpw batch lid
      = boolToInt ((List.range rpw).all
          (fun m => !(decide (lid + batch * wg * rpw + m * wg < n))
              || pred (off + redIdx (lid + batch * wg * rpw + m * wg)))) := by
  have h := foldl_guard_logical_and (List.range rpw)
    (fun m => lid + batch * wg * rpw + m * wg < n)
    (fun m => pred (off + redIdx (lid + batch * wg * rpw + m * wg))) true
  simpa [StridedBooleanReduction.localVal, all_identity, boolToInt] using h

theorem StridedBooleanReduction_localVal_or_eq (pred : Nat → Bool)
    (off : Nat) (redIdx : Nat → Nat) (n wg rpw batch lid : Nat) :
    StridedBooleanReduction.localVal logical_or any_identity pred off redIdx
        n wg rpw batch lid
      = boolToInt ((List.range rpw).any
          (fun m => decide (lid + batch * wg * rpw + m * wg < n)
              && pred (off + redIdx (lid + batch * wg * rpw + m * wg)))) := by
  have h := foldl_guard_logical_or (List.range rpw)
    (fun m => lid + batch * wg * rpw + m * wg < n)
    (fun m => pred (off + redIdx (lid + batch * wg * rpw + m * wg))) false
  simpa [StridedBooleanReduction.localVal, any_identity, boolToInt] using h

theorem StridedBooleanReduction_out_all_eq (pred : Nat → Bool) (off : Nat)
    (redIdx : Nat → Nat) (wg n : Nat) :
    StridedBooleanReduction.out logical_and all_identity all_reduce_wg_strided
        pred off redIdx wg n
      = boolToInt ((List.range (reduction_groups wg n)).all
          (fun batch => (List.range wg).all
            (fun lid => (List.range (reductions_per_wi wg n)).all
              (fun m =>
                !(decide
                    (lid + batch * wg * reductions_per_wi wg n + m * wg < n))
                || pred (off + redIdx
                    (lid + batch * wg * reductions_per_wi wg n
                      + m * wg)))))) := by
  have h := foldl_logical_and (List.range (reduction_groups wg n))
    (fun batch => (List.range wg).all
      (fun lid => (List.range (reductions_per_wi wg n)).all
        (fun m =>
          !(decide (lid + batch * wg * reductions_per_wi wg n + m * wg < n))
          || pred (off + redIdx
              (lid + batch * wg * reductions_per_wi wg n + m * wg)))))
    true
  simp only [StridedBooleanReduction.out,
    StridedBooleanReduction_localVal_and_eq, all_reduce_wg_strided,
    boolToInt_bne_zero]
  simpa [all_identity, boolToInt] using h

theorem StridedBooleanReduction_out_any_eq (pred : Nat → Bool) (off : Nat)
    (redIdx : Nat → Nat) (wg n : Nat) :
    StridedBooleanReduction.out logical_or any_identity any_reduce_wg_strided
        pred off redIdx wg n
      = boolToInt ((List.range (reduction_groups wg n)).any
          (fun batch => (List.range wg).any
            (fun lid => (List.range (reductions_per_wi wg n)).any
              (fun m =>
                decide (lid + batch * wg * reductions_per_wi wg n + m * wg < n)
                && pred (off + redIdx
                    (lid + batch * wg * reductions_per_wi wg n
                      + m * wg)))))) := by
  have h := foldl_logical_or (List.range (reduction_groups wg n))
    (fun batch => (List.range wg).any
      (fun lid => (List.range (reductions_per_wi wg n)).any
        (fun m =>
          decide (lid + batch * wg * reductions_per_wi wg n + m * wg < n)
          && pred (off + redIdx
              (lid + batch * wg * reductions_per_wi wg n + m * wg)))))
    false
  simp only [StridedBooleanReduction.out,
    StridedBooleanReduction_localVal_or_eq, any_reduce_wg_strided,
    boolToInt_bne_zero]
  simpa [any_identity, boolToInt] using h

/-! The work groups of the large path exactly cover the reduction
dimension. -/

theorem gid_decomposition (wg R G n j : Nat) (hw : 0 < wg) (hR : 0 < R)
    (hcov : n ≤ G * (R * wg)) (hj : j < n) :
    ∃ batch < G, ∃ lid < wg, ∃ m < R, lid + batch * wg * R + m * wg = j := by
  have hD : 0 < wg * R := Nat.mul_pos hw hR
  refine ⟨j / (wg * R), ?_, j % (wg * R) % wg, Nat.mod_lt _ hw,
    j % (wg * R) / wg, ?_, ?_⟩
  · have hcov2 : n ≤ G * (wg * R) := by
      rw [Nat.mul_comm wg R]
      exact hcov
    exact (Nat.div_lt_iff_lt_mul hD).mpr (lt_of_lt_of_le hj hcov2)
  · have h1 : j % (wg * R) < wg * R := Nat.mod_lt _ hD
    have h2 : j % (wg * R) < R * wg := by
      rw [Nat.mul_comm R wg]
      exact h1
    exact (Nat.div_lt_iff_lt_mul hw).mpr h2
  · have e1 := Nat.div_add_mod j (wg * R)
    have e2 := Nat.div_add_mod (j % (wg * R)) wg
    have e3 : j / (wg * R) * wg * R = wg * R * (j / (wg * R)) := by ring
    have e4 : j % (wg * R) / wg * wg = wg * (j % (wg * R) / wg) := by ring
    omega

theorem batch_decomposition (wg R G n m : Nat) (hw : 0 < wg) (hR : 0 < R)
    (hcov : n ≤ G * (R * wg)) (hm : m < n) :
    m / (wg * R) < G
    ∧ m / (wg * R) * wg * R ≤ m
    ∧ m < m / (wg * R) * wg * R + R * wg := by
  have hD : 0 < wg * R := Nat.mul_pos hw hR
  have e1 := Nat.div_add_mod m (wg * R)
  have e2 : m % (wg * R) < wg * R := Nat.mod_lt _ hD
  have e3 : m / (wg * R) * wg * R = wg * R * (m / (wg * R)) := by ring
  have e5 : R * wg = wg * R := Nat.mul_comm R wg
  refine ⟨?_, by omega, by omega⟩
  have hcov2 : n ≤ G * (wg * R) := by
    rw [Nat.mul_comm wg R]
    exact hcov
  exact (Nat.div_lt_iff_lt_mul hD).mpr (lt_of_lt_of_le hm hcov2)

theorem contig_cover_all (pred : Nat → Bool) (wg n rid : Nat) (hw : 0 < wg) :
    ((List.range (reduction_groups wg n)).all
      (fun batch =>
        (chunk
          (ContigBooleanReduction.start n wg (reductions_per_wi wg n) rid
            batch)
          (ContigBooleanReduction.stop n wg (reductions_per_wi wg n) rid
            batch)).all pred))
    = (List.range n).all (fun m => pred (rid * n + m)) := by
  rcases Nat.eq_zero_or_pos n with rfl | hn
  · rw [reduction_groups_zero wg hw]
    simp
  have hr := reductions_per_wi_pos wg n hw hn
  have hcov := reduction_coverage wg n hw
  rw [Bool.eq_iff_iff]
  simp only [List.all_eq_true, List.mem_range]
  constructor
  · intro h m hm
    obtain ⟨hb, hle, hlt⟩ :=
      batch_decomposition wg (reductions_per_wi wg n)
        (reduction_groups wg n) n m hw hr hcov hm
    refine h (m / (wg * reductions_per_wi wg n)) hb (rid * n + m)
      (mem_chunk.mpr ⟨?_, ?_⟩)
    · unfold ContigBooleanReduction.start
      omega
    · unfold ContigBooleanReduction.stop ContigBooleanReduction.start
      rw [Nat.lt_min]
      constructor <;> omega
  · intro h batch _ j hj
    obtain ⟨hsj, hje⟩ := mem_chunk.mp hj
    unfold ContigBooleanReduction.stop at hje
    have hjn : j < rid * n + n := lt_of_lt_of_le hje (min_le_right _ _)
    unfold ContigBooleanReduction.start at hsj
    have hbase : rid * n ≤ j := le_trans (Nat.le_add_right _ _) hsj
    have := h (j - rid * n) (by omega)
    rwa [Nat.add_sub_cancel' hbase] at this

theorem contig_cover_any (pred : Nat → Bool) (wg n rid : Nat) (hw : 0 < wg) :
    ((List.range (reduction_groups wg n)).any
      (fun batch =>
        (chunk
          (ContigBooleanReduction.start n wg (reductions_per_wi wg n) rid
            batch)
          (ContigBooleanReduction.stop n wg (reductions_per_wi wg n) rid
            batch)).any pred))
    = (List.range n).any (fun m => pred (rid * n + m)) := by
  rcases Nat.eq_zero_or_pos n with rfl | hn
  · rw [reduction_groups_zero wg hw]
    simp
  have hr := reductions_per_wi_pos wg n hw hn
  have hcov := reduction_coverage wg n hw
  rw [Bool.eq_iff_iff]
  simp only [List.any_eq_true, List.mem_range]
  constructor
  · rintro ⟨batch, _, j, hj, hpj⟩
    obtain ⟨hsj, hje⟩ := mem_chunk.mp hj
    unfold ContigBooleanReduction.stop at hje
    have hjn : j < rid * n + n := lt_of_lt_of_le hje (min_le_right _ _)
    unfold ContigBooleanReduction.start at hsj
    have hbase : rid * n ≤ j := le_trans (Nat.le_add_right _ _) hsj
    refine ⟨j - rid * n, by omega, ?_⟩
    rwa [Nat.add_sub_cancel' hbase]
  · rintro ⟨m, hm, hpm⟩
    obtain ⟨hb, hle, hlt⟩ :=
      batch_decomposition wg (reductions_per_wi wg n)
        (reduction_groups wg n) n m hw hr hcov hm
    refine ⟨m / (wg * reductions_per_wi wg n), hb, rid * n + m,
      mem_chunk.mpr ⟨?_, ?_⟩, hpm⟩
    · unfold ContigBooleanReduction.start
      omega
    · unfold ContigBooleanReduction.stop ContigBooleanReduction.start
      rw [Nat.lt_min]
      constructor <;> omega

theorem strided_cover_all (pred : Nat → Bool) (off : Nat)
    (redIdx : Nat → Nat) (wg n : Nat) (hw : 0 < wg) :
    ((List.range (reduction_groups wg n)).all
      (fun batch => (List.range wg).all
        (fun lid => (List.range (reductions_per_wi wg n)).all
          (fun m =>
            !(decide (lid + batch * wg * reductions_per_wi wg n + m * wg < n))
            || pred (off + redIdx
                (lid + batch * wg * reductions_per_wi wg n + m * wg))))))
    = (List.range n).all (fun j => pred (off + redIdx j)) := by
  rcases Nat.eq_zero_or_pos n with rfl | hn
  · rw [reduction_groups_zero wg hw]
    simp
  have hr := reductions_per_wi_pos wg n hw hn
  have hcov := reduction_coverage wg n hw
  rw [Bool.eq_iff_iff]
  simp only [List.all_eq_true, List.mem_range, Bool.or_eq_true,
    Bool.not_eq_eq_eq_not, Bool.not_true, decide_eq_false_iff_not,
    Nat.not_lt]
  constructor
  · intro h j hj
    obtain ⟨batch, hb, lid, hl, m, hm, hgid⟩ :=
      gid_decomposition wg (reductions_per_wi wg n)
        (reduction_groups wg n) n j hw hr hcov hj
    rcases h batch hb lid hl m hm with hout | hp
    · omega
    · rwa [hgid] at hp
  · intro h batch _ lid _ m _
    by_cases hgid : lid + batch * wg * reductions_per_wi wg n + m * wg < n
    · exact Or.inr (h _ hgid)
    · exact Or.inl (by omega)

theorem strided_cover_any (pred : Nat → Bool) (off : Nat)
    (redIdx : Nat → Nat) (wg n : Nat) (hw : 0 < wg) :
    ((List.range (reduction_groups wg n)).any
      (fun batch => (List.range wg).any
        (fun lid => (List.range (reductions_per_wi wg n)).any
          (fun m =>
            decide (lid + batch * wg * reductions_per_wi wg n + m * wg < n)
            && pred (off + redIdx
                (lid + batch * wg * reductions_per_wi wg n + m * wg))))))
    = (List.range n).any (fun j => pred (off + redIdx j)) := by
  rcases Nat.eq_zero_or_pos n with rfl | hn
  · rw [reduction_groups_zero wg hw]
    simp
  have hr := reductions_per_wi_pos wg n hw hn
  have hcov := reduction_coverage wg n hw
  rw [Bool.eq_iff_iff]
  simp only [List.any_eq_true, List.mem_range, Bool.and_eq_true,
    decide_eq_true_eq]
  constructor
  · rintro ⟨batch, _, lid, _, m, _, hgid, hp⟩
    exact ⟨_, hgid, hp⟩
  · rintro ⟨j, hj, hp⟩
    obtain ⟨batch, hb, lid, hl, m, hm, hgid⟩ :=
      gid_decomposition wg (reductions_per_wi wg n)
        (reduction_groups wg n) n j hw hr hcov hj
    exact ⟨batch, hb, lid, hl, m, hm, by rw [hgid]; exact ⟨hj, hp⟩⟩

theorem contig_paths_agree_and (pred : Nat → Bool) (wg n rid : Nat)
    (hw : 0 < wg) :
    SequentialBooleanReduction logical_and all_identity pred (rid * n)
        (fun m => m) n
      = ContigBooleanReduction.out logical_and all_identity
          all_reduce_wg_contig pred wg n rid := by
  rw [SequentialBooleanReduction_and_eq, ContigBooleanReduction_out_all_eq]
  exact congrArg boolToInt (contig_cover_all pred wg n rid hw).symm

theorem contig_paths_agree_or (pred : Nat → Bool) (wg n rid : Nat)
    (hw : 0 < wg) :
    SequentialBooleanReduction logical_or any_identity pred (rid * n)
        (fun m => m) n
      = ContigBooleanReduction.out logical_or any_identity
          any_reduce_wg_contig pred wg n rid := by
  rw [SequentialBooleanReduction_or_eq, ContigBooleanReduction_out_any_eq]
  exact congrArg boolToInt (contig_cover_any pred wg n rid hw).symm

theorem strided_paths_agree_and (pred : Nat → Bool) (off : Nat)
    (redIdx : Nat → Nat) (wg n : Nat) (hw : 0 < wg) :
    SequentialBooleanReduction logical_and all_identity pred off redIdx n
      = StridedBooleanReduction.out logical_and all_identity
          all_reduce_wg_strided pred off redIdx wg n := by
  rw [SequentialBooleanReduction_and_eq, StridedBooleanReduction_out_all_eq]
  exact congrArg boolToInt (strided_cover_all pred off redIdx wg n hw).symm

theorem strided_paths_agree_or (pred : Nat → Bool) (off : Nat)
    (redIdx : Nat → Nat) (wg n : Nat) (hw : 0 < wg) :
    SequentialBooleanReduction logical_or any_identity pred off redIdx n
      = StridedBooleanReduction.out logical_or any_identity
          any_reduce_wg_strided pred off redIdx wg n := by
  rw [SequentialBooleanReduction_or_eq, StridedBooleanReduction_out_any_eq]
  exact congrArg boolToInt (strided_cover_any pred off redIdx wg n hw).symm

/-- Claim C4: for identical input data, iteration count and reduction size,
the dispatched boolean reduction (sequential path taken exactly when
`reduction_nelems < wg` with `wg = 4 * max_sg`, two-phase
init-plus-atomic-fold path otherwise) produces exactly the output of the
sequential fold on every slot, for both `any` and `all` and for both the
contiguous and the strided entry points; hence the two paths agree exactly
for every reduction size — in particular at sizes `wg - 1` and `wg` — for
the same data. -/
theorem boolean_reduction_small_large_paths_agree :
    ∀ (α : Type) (toBool : α → Bool) (inp : Nat → α)
      (iterIdx : Nat → Nat × Nat) (redIdx : Nat → Nat)
      (max_sg iter_nelems n : Nat),
      0 < max_sg →
      (boolean_reduction_contig_run logical_and all_identity
          all_reduce_wg_contig toBool inp max_sg iter_nelems n
        = (List.range iter_nelems).map (fun id =>
            SequentialBooleanReduction logical_and all_identity
              (fun j => toBool (inp j)) (id * n) (fun m => m) n))
      ∧ (boolean_reduction_contig_run logical_or any_identity
          any_reduce_wg_contig toBool inp max_sg iter_nelems n
        = (List.range iter_nelems).map (fun id =>
            SequentialBooleanReduction logical_or any_identity
              (fun j => toBool (inp j)) (id * n) (fun m => m) n))
      ∧ (boolean_reduction_strided_run logical_and all_identity
          all_reduce_wg_strided toBool inp iterIdx redIdx max_sg iter_nelems n
        = (List.range iter_nelems).map (fun id =>
            SequentialBooleanReduction logical_and all_identity
              (fun j => toBool (inp j)) (iterIdx id).1 redIdx n))
      ∧ (boolean_reduction_strided_run logical_or any_identity
          any_reduce_wg_strided toBool inp iterIdx redIdx max_sg iter_nelems n
        = (List.range iter_nelems).map (fun id =>
            SequentialBooleanReduction logical_or any_identity
              (fun j => toBool (inp j)) (iterIdx id).1 redIdx n)) := by
  intro α toBool inp iterIdx redIdx max_sg iter_nelems n h
  have hw : 0 < 4 * max_sg := by omega
  refine ⟨?_, ?_, ?_, ?_⟩
  · simp only [boolean_reduction_contig_run]
    split
    · rfl
    · exact List.map_congr_left (fun id _ =>
        (contig_paths_agree_and _ _ _ _ hw).symm)
  · simp only [boolean_reduction_contig_run]
    split
    · rfl
    · exact List.map_congr_left (fun id _ =>
        (contig_paths_agree_or _ _ _ _ hw).symm)
  · simp only [boolean_reduction_strided_run]
    split
    · rfl
    · exact List.map_congr_left (fun id _ =>
        (strided_paths_agree_and _ _ _ _ _ hw).symm)
  · simp only [boolean_reduction_strided_run]
    split
    · rfl
    · exact List.map_congr_left (fun id _ =>
        (strided_paths_agree_or _ _ _ _ _ hw).symm)

/-- Witness for boolean_reduction_small_large_paths_agree at `max_sg = 1`
(so `wg = 4`), `iter_nelems = 2` and reduction size `n = 5` (large path). -/
theorem boolean_reduction_small_large_paths_agree_witness :
    0 < 1
    ∧ ((boolean_reduction_contig_run logical_and all_identity
          all_reduce_wg_contig (fun x : Nat => decide (x % 2 = 1))
          (fun j => j) 1 2 5
        = (List.range 2).map (fun id =>
            SequentialBooleanReduction logical_and all_identity
              (fun j => decide (j % 2 = 1)) (id * 5) (fun m => m) 5))
      ∧ (boolean_reduction_contig_run logical_or any_identity
          any_reduce_wg_contig (fun x : Nat => decide (x % 2 = 1))
          (fun j => j) 1 2 5
        = (List.range 2).map (fun id =>
            SequentialBooleanReduction logical_or any_identity
              (fun j => decide (j % 2 = 1)) (id * 5) (fun m => m) 5))
      ∧ (boolean_reduction_strided_run logical_and all_identity
          all_reduce_wg_strided (fun x : Nat => decide (x % 2 = 1))
          (fun j => j) (fun i => (3 * i, i)) (fun m => 2 * m) 1 2 5
        = (List.range 2).map (fun id =>
            SequentialBooleanReduction logical_and all_identity
              (fun j => decide (j % 2 = 1)) ((fun i => (3 * i, i)) id).1
              (fun m => 2 * m) 5))
      ∧ (boolean_reduction_strided_run logical_or any_identity
          any_reduce_wg_strided (fun x : Nat => decide (x % 2 = 1))
          (fun j => j) (fun i => (3 * i, i)) (fun m => 2 * m) 1 2 5
        = (List.range 2).map (fun id =>
            SequentialBooleanReduction logical_or any_identity
              (fun j => decide (j % 2 = 1)) ((fun i => (3 * i, i)) id).1
              (fun m => 2 * m) 5))) :=
  ⟨by decide,
    boolean_reduction_small_large_paths_agree Nat
      (fun x => decide (x % 2 = 1)) (fun j => j) (fun i => (3 * i, i))
      (fun m => 2 * m) 1 2 5 (by decide)⟩

/-- Claim C5: in the large-reduction path, the per-work-item workload chosen
by the code equals `min(preferred = 4, ceil(reduction_nelems / wg))` for
every `reduction_nelems >= wg > 0`, and the
`reduction_groups = ceil(reduction_nelems / (reductions_per_wi * wg))` work
groups jointly cover the whole reduction dimension. -/
theorem reductions_per_wi_min_and_coverage :
    ∀ wg n : Nat, 0 < wg → wg ≤ n →
      reductions_per_wi wg n
          = min preferred_reductions_per_wi ((n + wg - 1) / wg)
      ∧ n ≤ reduction_groups wg n * (reductions_per_wi wg n * wg) := by
  intro wg n hw hwn
  constructor
  · unfold reductions_per_wi preferred_reductions_per_wi
    split
    · rename_i h
      have hlt : (n + wg - 1) / wg < 5 := by
        rw [Nat.div_lt_iff_lt_mul hw]
        omega
      omega
    · rename_i h
      have hge : 4 ≤ (n + wg - 1) / wg := by
        rw [Nat.le_div_iff_mul_le hw]
        omega
      omega
  · exact reduction_coverage wg n hw

/-- Witness for reductions_per_wi_min_and_coverage at `wg = 8`, `n = 20`. -/
theorem reductions_per_wi_min_and_coverage_witness :
    0 < 8 ∧ 8 ≤ 20
    ∧ (reductions_per_wi 8 20
          = min preferred_reductions_per_wi ((20 + 8 - 1) / 8)
        ∧ 20 ≤ reduction_groups 8 20 * (reductions_per_wi 8 20 * 8)) :=
  ⟨by decide, by decide,
    reductions_per_wi_min_and_coverage 8 20 (by decide) (by decide)⟩

/-- Claim C3: for every input element type, conversion predicate and number
of iteration indices, a boolean reduction over a reduction axis of size 0
writes the operator's identity to every output slot: `all`
(`logical_and`) writes `1` and `any` (`logical_or`) writes `0`, in both the
contiguous and the strided entry points — size 0 is below the work-group
threshold `4 * max_sg`, the sequential path runs, its fold loop executes
zero times and the identity is stored unchanged. -/
theorem boolean_reduction_zero_size_identity :
    ∀ (α : Type) (toBool : α → Bool) (inp : Nat → α)
      (iterIdx : Nat → Nat × Nat) (redIdx : Nat → Nat)
      (max_sg iter_nelems : Nat),
      0 < max_sg →
      boolean_reduction_contig_run logical_and all_identity
          all_reduce_wg_contig toBool inp max_sg iter_nelems 0
        = List.replicate iter_nelems 1
      ∧ boolean_reduction_contig_run logical_or any_identity
          any_reduce_wg_contig toBool inp max_sg iter_nelems 0
        = List.replicate iter_nelems 0
      ∧ boolean_reduction_strided_run logical_and all_identity
          all_reduce_wg_strided toBool inp iterIdx redIdx max_sg iter_nelems 0
        = List.replicate iter_nelems 1
      ∧ boolean_reduction_strided_run logical_or any_identity
          any_reduce_wg_strided toBool inp iterIdx redIdx max_sg iter_nelems 0
        = List.replicate iter_nelems 0 := by
  intro α toBool inp iterIdx redIdx max_sg iter_nelems h
  have hwg : (0 : Nat) < 4 * max_sg := by omega
  refine ⟨?_, ?_, ?_, ?_⟩ <;>
    simp [boolean_reduction_contig_run, boolean_reduction_strided_run,
      hwg, SequentialBooleanReduction, all_identity, any_identity,
      List.map_const', List.length_range]

/-- Witness for boolean_reduction_zero_size_identity at `max_sg = 2`,
`iter_nelems = 3`. -/
theorem boolean_reduction_zero_size_identity_witness :
    0 < 2
    ∧ (boolean_reduction_contig_run logical_and all_identity
          all_reduce_wg_contig (fun x : Nat => decide (0 < x)) (fun j => j)
          2 3 0
        = List.replicate 3 1
      ∧ boolean_reduction_contig_run logical_or any_identity
          any_reduce_wg_contig (fun x : Nat => decide (0 < x)) (fun j => j)
          2 3 0
        = List.replicate 3 0
      ∧ boolean_reduction_strided_run logical_and all_identity
          all_reduce_wg_strided (fun x : Nat => decide (0 < x)) (fun j => j)
          (fun i => (i, i)) (fun m => m) 2 3 0
        = List.replicate 3 1
      ∧ boolean_reduction_strided_run logical_or any_identity
          any_reduce_wg_strided (fun x : Nat => decide (0 < x)) (fun j => j)
          (fun i => (i, i)) (fun m => m) 2 3 0
        = List.replicate 3 0) :=
  ⟨by decide,
    boolean_reduction_zero_size_identity Nat (fun x => decide (0 < x))
      (fun j => j) (fun i => (i, i)) (fun m => m) 2 3 (by decide)⟩

/-- Claim C9: in both large-size boolean reduction kernels every work item
reads input only at reduction indices within `[0, reduction_size)`:
the contiguous kernel's clamped range `[start, stop)` stays below
`base + reduction_size`, the strided kernel's guarded loop dereferences only
`arg_reduce_gid < reduction_size`, and a surplus work item all of whose
candidate indices are out of range leaves its local value at the identity,
so it never changes the result. -/
theorem reduction_bounds_safety :
    ∀ (n wg rpw rid batch lid : Nat) (op : Int → Int → Int) (identity : Int)
      (pred : Nat → Bool) (off : Nat) (redIdx : Nat → Nat),
      ((List.range rpw).all
          (fun m => decide (n ≤ lid + batch * wg * rpw + m * wg))) = true →
      ((chunk (ContigBooleanReduction.start n wg rpw rid batch)
              (ContigBooleanReduction.stop n wg rpw rid batch)).all
          (fun j => decide (j < rid * n + n))) = true
      ∧ ((StridedBooleanReduction.gids n wg rpw batch lid).all
          (fun gid => decide (gid < n))) = true
      ∧ StridedBooleanReduction.localVal op identity pred off redIdx
          n wg rpw batch lid = identity := by
  intro n wg rpw rid batch lid op identity pred off redIdx hsur
  rw [List.all_eq_true] at hsur
  refine ⟨?_, ?_, ?_⟩
  · rw [List.all_eq_true]
    intro j hj
    have hmem := mem_chunk.mp hj
    have hje : j < ContigBooleanReduction.stop n wg rpw rid batch := hmem.2
    unfold ContigBooleanReduction.stop at hje
    have : j < rid * n + n := lt_of_lt_of_le hje (min_le_right _ _)
    simpa using this
  · rw [List.all_eq_true]
    intro gid hgid
    have := (List.mem_filter.mp hgid).2
    simpa using this
  · unfold StridedBooleanReduction.localVal
    refine foldl_fixed _ _ _ ?_
    intro m hm acc2
    have hge := hsur m hm
    rw [if_neg]
    simp only [decide_eq_true_eq] at hge
    omega

/-- Witness for reduction_bounds_safety at `n = 5`, `wg = 2`, `rpw = 3`,
`rid = 1`, `batch = 1`, `lid = 1` (all candidate gids of that work item are
`>= 5`). -/
theorem reduction_bounds_safety_witness :
    ((List.range 3).all
        (fun m => decide (5 ≤ 1 + 1 * 2 * 3 + m * 2))) = true
    ∧ (((chunk (ContigBooleanReduction.start 5 2 3 1 1)
            (ContigBooleanReduction.stop 5 2 3 1 1)).all
          (fun j => decide (j < 1 * 5 + 5))) = true
      ∧ ((StridedBooleanReduction.gids 5 2 3 1 1).all
          (fun gid => decide (gid < 5))) = true
      ∧ StridedBooleanReduction.localVal logical_or any_identity
          (fun j => decide (j % 2 = 0)) 0 (fun m => m) 5 2 3 1 1
            = any_identity) :=
  ⟨by decide,
    reduction_bounds_safety 5 2 3 1 1 1 logical_or any_identity
      (fun j => decide (j % 2 = 0)) 0 (fun m => m) (by decide)⟩

end DpctlTensor
